import Mathlib

/-!
Verification of the rotation-decomposition core of `TransformToTCP.py`:
the two pure functions `_axes_to_quaternion` and `_axes_to_euler_zyx`.
The Python floats are modelled by real numbers, `math.sqrt` / `** 0.5`
by `Real.sqrt` (exact on the nonnegative arguments the selected branches
produce), `math.asin` by `Real.arcsin`, and `math.atan2 y x` by
`Complex.arg ⟨x, y⟩`, which is exactly the two-argument arctangent with
range (−π, π].
-/

open Real

/-- A 3-component real vector (x, y, z), as used for the basis axes. -/
structure Vec3 where
  x : ℝ
  y : ℝ
  z : ℝ

/-- Dot product of two vectors. -/
def dot (u v : Vec3) : ℝ := u.x * v.x + u.y * v.y + u.z * v.z

/-- Cross product of two vectors. -/
def cross (u v : Vec3) : Vec3 :=
  ⟨u.y * v.z - u.z * v.y, u.z * v.x - u.x * v.z, u.x * v.y - u.y * v.x⟩

/-- The columns (xAxis, yAxis, zAxis) are mutually orthonormal. -/
def Orthonormal3 (xa ya za : Vec3) : Prop :=
  dot xa xa = 1 ∧ dot ya ya = 1 ∧ dot za za = 1 ∧
  dot xa ya = 0 ∧ dot xa za = 0 ∧ dot ya za = 0

/-- Right-handedness: the determinant of the matrix with columns
(xAxis, yAxis, zAxis) is +1 (written as the scalar triple product). -/
def RightHanded (xa ya za : Vec3) : Prop :=
  dot (cross xa ya) za = 1

/-- Two-argument arctangent `atan2 y x`, modelling Python's `math.atan2`:
`Complex.arg ⟨x, y⟩` is the angle of the point (x, y), with range (−π, π]
and `atan2 0 0 = 0`, exactly the standard atan2 semantics over ℝ. -/
noncomputable def atan2 (y x : ℝ) : ℝ := Complex.arg ⟨x, y⟩

/-- Shallow embedding of `_axes_to_quaternion` from `TransformToTCP.py`:
the matrix M has the axes as columns; result tuple is (qx, qy, qz, qw). -/
noncomputable def axes_to_quaternion (xa ya za : Vec3) : ℝ × ℝ × ℝ × ℝ :=
  let m00 := xa.x; let m01 := ya.x; let m02 := za.x
  let m10 := xa.y; let m11 := ya.y; let m12 := za.y
  let m20 := xa.z; let m21 := ya.z; let m22 := za.z
  let tr := m00 + m11 + m22
  if tr > 0 then
    let S := Real.sqrt (tr + 1) * 2
    ((m21 - m12) / S, (m02 - m20) / S, (m10 - m01) / S, 0.25 * S)
  else if m00 > m11 ∧ m00 > m22 then
    let S := Real.sqrt (1 + m00 - m11 - m22) * 2
    (0.25 * S, (m01 + m10) / S, (m02 + m20) / S, (m21 - m12) / S)
  else if m11 > m22 then
    let S := Real.sqrt (1 + m11 - m00 - m22) * 2
    ((m01 + m10) / S, 0.25 * S, (m12 + m21) / S, (m02 - m20) / S)
  else
    let S := Real.sqrt (1 + m22 - m00 - m11) * 2
    ((m02 + m20) / S, (m12 + m21) / S, 0.25 * S, (m10 - m01) / S)

/-- Shallow embedding of `_axes_to_euler_zyx` from `TransformToTCP.py`:
returns (rx, ry, rz) for the intrinsic ZYX decomposition R = Rz · Ry · Rx. -/
noncomputable def axes_to_euler_zyx (xa ya za : Vec3) : ℝ × ℝ × ℝ :=
  let m00 := xa.x; let m01 := ya.x
  let m10 := xa.y; let m11 := ya.y
  let m20 := xa.z; let m21 := ya.z; let m22 := za.z
  let m20c := max (-1) (min 1 m20)
  if |m20c| < 1 then
    (atan2 m21 m22, -Real.arcsin m20c, atan2 m10 m00)
  else
    (atan2 (-m01) m11, if m20c ≤ -1 then π / 2 else -(π / 2), 0)

/-- The four branches of `_axes_to_quaternion`. -/
inductive QBranch where
  | trPos : QBranch
  | d00 : QBranch
  | d11 : QBranch
  | d22 : QBranch
deriving DecidableEq

/-- Which branch `_axes_to_quaternion` selects (same conditional
structure as the source). -/
noncomputable def qbranch (xa ya za : Vec3) : QBranch :=
  let m00 := xa.x; let m11 := ya.y; let m22 := za.z
  let tr := m00 + m11 + m22
  if tr > 0 then QBranch.trPos
  else if m00 > m11 ∧ m00 > m22 then QBranch.d00
  else if m11 > m22 then QBranch.d11
  else QBranch.d22

/-- The argument of the square root in the branch `_axes_to_quaternion`
selects (same conditional structure as the source). -/
noncomputable def qSqrtArg (xa ya za : Vec3) : ℝ :=
  let m00 := xa.x; let m11 := ya.y; let m22 := za.z
  let tr := m00 + m11 + m22
  if tr > 0 then tr + 1
  else if m00 > m11 ∧ m00 > m22 then 1 + m00 - m11 - m22
  else if m11 > m22 then 1 + m11 - m00 - m22
  else 1 + m22 - m00 - m11

/-- The divisor S of the branch `_axes_to_quaternion` selects. -/
noncomputable def qDenom (xa ya za : Vec3) : ℝ :=
  Real.sqrt (qSqrtArg xa ya za) * 2

/-- The gimbal-lock branch of `_axes_to_euler_zyx` is the one taken when
its guard `|m20c| < 1` fails. -/
def gimbalLock (xa ya za : Vec3) : Prop :=
  ¬ |max (-1) (min 1 xa.z)| < 1

/-- A 3×3 real matrix, given entrywise. -/
structure Mat3 where
  a00 : ℝ
  a01 : ℝ
  a02 : ℝ
  a10 : ℝ
  a11 : ℝ
  a12 : ℝ
  a20 : ℝ
  a21 : ℝ
  a22 : ℝ

/-- The rotation matrix whose columns are the given axes (the matrix M
built at the top of both source functions). -/
def basisMatrix (xa ya za : Vec3) : Mat3 :=
  ⟨xa.x, ya.x, za.x, xa.y, ya.y, za.y, xa.z, ya.z, za.z⟩

/-- Standard quaternion→matrix formula (the reconstruction the spec's
round-trip property refers to), for q = (qx, qy, qz, qw). -/
def quatToMatrix (q : ℝ × ℝ × ℝ × ℝ) : Mat3 :=
  let x := q.1; let y := q.2.1; let z := q.2.2.1; let w := q.2.2.2
  ⟨1 - 2 * (y ^ 2 + z ^ 2), 2 * (x * y - z * w), 2 * (x * z + y * w),
   2 * (x * y + z * w), 1 - 2 * (x ^ 2 + z ^ 2), 2 * (y * z - x * w),
   2 * (x * z - y * w), 2 * (y * z + x * w), 1 - 2 * (x ^ 2 + y ^ 2)⟩

/-- Elementary rotation about the x-axis by angle t. -/
noncomputable def rotX (t : ℝ) : Mat3 :=
  ⟨1, 0, 0, 0, Real.cos t, -Real.sin t, 0, Real.sin t, Real.cos t⟩

/-- Elementary rotation about the y-axis by angle t. -/
noncomputable def rotY (t : ℝ) : Mat3 :=
  ⟨Real.cos t, 0, Real.sin t, 0, 1, 0, -Real.sin t, 0, Real.cos t⟩

/-- Elementary rotation about the z-axis by angle t. -/
noncomputable def rotZ (t : ℝ) : Mat3 :=
  ⟨Real.cos t, -Real.sin t, 0, Real.sin t, Real.cos t, 0, 0, 0, 1⟩

/-- Matrix product of two 3×3 matrices. -/
def matMul (A B : Mat3) : Mat3 :=
  ⟨A.a00 * B.a00 + A.a01 * B.a10 + A.a02 * B.a20,
   A.a00 * B.a01 + A.a01 * B.a11 + A.a02 * B.a21,
   A.a00 * B.a02 + A.a01 * B.a12 + A.a02 * B.a22,
   A.a10 * B.a00 + A.a11 * B.a10 + A.a12 * B.a20,
   A.a10 * B.a01 + A.a11 * B.a11 + A.a12 * B.a21,
   A.a10 * B.a02 + A.a11 * B.a12 + A.a12 * B.a22,
   A.a20 * B.a00 + A.a21 * B.a10 + A.a22 * B.a20,
   A.a20 * B.a01 + A.a21 * B.a11 + A.a22 * B.a21,
   A.a20 * B.a02 + A.a21 * B.a12 + A.a22 * B.a22⟩

/-- The matrix Rz(rz)·Ry(ry)·Rx(rx) of the intrinsic ZYX convention. -/
noncomputable def eulerZYXMatrix (rx ry rz : ℝ) : Mat3 :=
  matMul (rotZ rz) (matMul (rotY ry) (rotX rx))

-- C4 trial

/-- The angle of the point (1, 0) is zero. -/
lemma atan2_zero_one : atan2 0 1 = 0 := by
  have h1 : ((⟨1, 0⟩ : ℂ)) = 1 := by
    apply Complex.ext <;> simp
  simp only [atan2]
  rw [h1, Complex.arg_one]

/-- Core identities of a rotation matrix [[a,b,c],[d,e,f],[g,h,i]] whose
columns are orthonormal and whose third column is the cross product of the
first two: every entry equals its cofactor, and the rows are unit
vectors. -/
lemma rotation_kit (a b c d e f g h i : ℝ)
    (n1 : a^2 + d^2 + g^2 = 1) (n2 : b^2 + e^2 + h^2 = 1)
    (n3 : c^2 + f^2 + i^2 = 1)
    (o12 : a*b + d*e + g*h = 0)
    (x1 : c = d*h - g*e) (x2 : f = g*b - a*h) (x3 : i = a*e - d*b) :
    (a = e*i - f*h) ∧ (d = c*h - b*i) ∧ (g = b*f - c*e) ∧
    (b = f*g - d*i) ∧ (e = a*i - c*g) ∧ (h = c*d - a*f) ∧
    (a^2 + b^2 + c^2 = 1) ∧ (d^2 + e^2 + f^2 = 1) ∧ (g^2 + h^2 + i^2 = 1) := by
  have hA : a = e*i - f*h := by linear_combination (-e)*x3 + h*x2 + (-a)*n2 + b*o12
  have hD : d = c*h - b*i := by linear_combination (-h)*x1 + b*x3 + (-d)*n2 + e*o12
  have hG : g = b*f - c*e := by linear_combination (-b)*x2 + e*x1 + (-g)*n2 + h*o12
  have hB : b = f*g - d*i := by linear_combination (-g)*x2 + d*x3 + (-b)*n1 + a*o12
  have hE : e = a*i - c*g := by linear_combination (-a)*x3 + g*x1 + (-e)*n1 + d*o12
  have hH : h = c*d - a*f := by linear_combination (-d)*x1 + a*x2 + (-h)*n1 + g*o12
  have r1 : a^2 + b^2 + c^2 = 1 := by
    linear_combination a*hA + b*hB + n3 + (-f)*x2 + (-i)*x3
  have r2 : d^2 + e^2 + f^2 = 1 := by
    linear_combination d*hD + e*hE + n3 + (-c)*x1 + (-i)*x3
  have r3 : g^2 + h^2 + i^2 = 1 := by
    linear_combination g*hG + h*hH + n3 + (-c)*x1 + (-f)*x2
  exact ⟨hA, hD, hG, hB, hE, hH, r1, r2, r3⟩

/-- In the trace-positive branch, the quaternion built by the source formula
reconstructs every matrix entry and has unit norm. -/
lemma trPos_entries (a b c d e f g h i S : ℝ)
    (n1 : a^2 + d^2 + g^2 = 1) (n2 : b^2 + e^2 + h^2 = 1)
    (n3 : c^2 + f^2 + i^2 = 1)
    (o12 : a*b + d*e + g*h = 0)
    (x1 : c = d*h - g*e) (x2 : f = g*b - a*h) (x3 : i = a*e - d*b)
    (htr : 0 < a + e + i)
    (hS : S = Real.sqrt (a + e + i + 1) * 2) :
    (1 - 2 * (((c-g)/S)^2 + ((d-b)/S)^2) = a) ∧
    (2 * ((h-f)/S * ((c-g)/S) - (d-b)/S * (0.25*S)) = b) ∧
    (2 * ((h-f)/S * ((d-b)/S) + (c-g)/S * (0.25*S)) = c) ∧
    (2 * ((h-f)/S * ((c-g)/S) + (d-b)/S * (0.25*S)) = d) ∧
    (1 - 2 * (((h-f)/S)^2 + ((d-b)/S)^2) = e) ∧
    (2 * ((c-g)/S * ((d-b)/S) - (h-f)/S * (0.25*S)) = f) ∧
    (2 * ((h-f)/S * ((d-b)/S) - (c-g)/S * (0.25*S)) = g) ∧
    (2 * ((c-g)/S * ((d-b)/S) + (h-f)/S * (0.25*S)) = h) ∧
    (1 - 2 * (((h-f)/S)^2 + ((c-g)/S)^2) = i) ∧
    (((h-f)/S)^2 + ((c-g)/S)^2 + ((d-b)/S)^2 + (0.25*S)^2 = 1) := by
  obtain ⟨hA, hD, hG, hB, hE, hH, r1, r2, r3⟩ :=
    rotation_kit a b c d e f g h i n1 n2 n3 o12 x1 x2 x3
  have ht1 : (0:ℝ) < a + e + i + 1 := by linarith
  have hS2 : S^2 = 4*((a+e+i)+1) := by
    rw [hS, mul_pow, Real.sq_sqrt (le_of_lt ht1)]
    ring
  have hSpos : 0 < S := by
    rw [hS]
    have := Real.sqrt_pos.mpr ht1
    linarith
  have hSne : S ≠ 0 := ne_of_gt hSpos
  have diag00 : (c-g)^2 + (d-b)^2 = 2*((a+e+i)+1)*(1-a) := by
    linear_combination r1 + n1 + (-2)*hE + (-2)*x3
  have diag11 : (h-f)^2 + (d-b)^2 = 2*((a+e+i)+1)*(1-e) := by
    linear_combination n2 + r2 + (-2)*hA + (-2)*x3
  have diag22 : (h-f)^2 + (c-g)^2 = 2*((a+e+i)+1)*(1-i) := by
    linear_combination r3 + n3 + (-2)*hA + (-2)*hE
  have k01 : (h-f)*(c-g) = ((a+e+i)+1)*(b+d) := by
    linear_combination (-(1+a))*hD + (-(1+a))*hB + (-(b+d))*hE + (-g)*hH + (-c)*x2
  have k02 : (h-f)*(d-b) = ((a+e+i)+1)*(c+g) := by
    linear_combination (-(1+a))*x1 + (-(1+a))*hG + (-(c+g))*x3 + (-b)*hH + (-d)*x2
  have k12 : (c-g)*(d-b) = ((a+e+i)+1)*(f+h) := by
    linear_combination (-(1+e))*hH + (-(1+e))*x2 + (-(f+h))*x3 + (-b)*x1 + (-d)*hG
  have knorm : (h-f)^2 + (c-g)^2 + (d-b)^2 = ((a+e+i)+1)*(3-(a+e+i)) := by
    linear_combination (1/2 : ℝ)*diag00 + (1/2 : ℝ)*diag11 + (1/2 : ℝ)*diag22
  refine ⟨?_, ?_, ?_, ?_, ?_, ?_, ?_, ?_, ?_, ?_⟩
  · field_simp
    linear_combination (1-a)*hS2 + (-2)*diag00
  · field_simp
    linear_combination (2*S)*k01 + (-(b+d)/2*S)*hS2
  · field_simp
    linear_combination (2*S)*k02 + (-(c+g)/2*S)*hS2
  · field_simp
    linear_combination (2*S)*k01 + (-(b+d)/2*S)*hS2
  · field_simp
    linear_combination (1-e)*hS2 + (-2)*diag11
  · field_simp
    linear_combination (2*S)*k12 + (-(f+h)/2*S)*hS2
  · field_simp
    linear_combination (2*S)*k02 + (-(c+g)/2*S)*hS2
  · field_simp
    linear_combination (2*S)*k12 + (-(f+h)/2*S)*hS2
  · field_simp
    linear_combination (1-i)*hS2 + (-2)*diag22
  · field_simp
    linear_combination knorm + (S^2/16 + (a+e+i-3)/4)*hS2

/-- In the M00-dominant branch, the quaternion built by the source formula
reconstructs every matrix entry and has unit norm.  The other two diagonal
branches follow by instantiating this lemma at a cyclic relabelling of the
coordinates. -/
lemma d00_entries (a b c d e f g h i S : ℝ)
    (n1 : a^2 + d^2 + g^2 = 1) (n2 : b^2 + e^2 + h^2 = 1)
    (n3 : c^2 + f^2 + i^2 = 1)
    (o12 : a*b + d*e + g*h = 0)
    (x1 : c = d*h - g*e) (x2 : f = g*b - a*h) (x3 : i = a*e - d*b)
    (hu : 0 < 1 + a - e - i)
    (hS : S = Real.sqrt (1 + a - e - i) * 2) :
    (1 - 2 * (((b+d)/S)^2 + ((c+g)/S)^2) = a) ∧
    (2 * (0.25*S * ((b+d)/S) - (c+g)/S * ((h-f)/S)) = b) ∧
    (2 * (0.25*S * ((c+g)/S) + (b+d)/S * ((h-f)/S)) = c) ∧
    (2 * (0.25*S * ((b+d)/S) + (c+g)/S * ((h-f)/S)) = d) ∧
    (1 - 2 * ((0.25*S)^2 + ((c+g)/S)^2) = e) ∧
    (2 * ((b+d)/S * ((c+g)/S) - 0.25*S * ((h-f)/S)) = f) ∧
    (2 * (0.25*S * ((c+g)/S) - (b+d)/S * ((h-f)/S)) = g) ∧
    (2 * ((b+d)/S * ((c+g)/S) + 0.25*S * ((h-f)/S)) = h) ∧
    (1 - 2 * ((0.25*S)^2 + ((b+d)/S)^2) = i) ∧
    ((0.25*S)^2 + ((b+d)/S)^2 + ((c+g)/S)^2 + ((h-f)/S)^2 = 1) := by
  obtain ⟨hA, hD, hG, hB, hE, hH, r1, r2, r3⟩ :=
    rotation_kit a b c d e f g h i n1 n2 n3 o12 x1 x2 x3
  have hS2 : S^2 = 4*(1 + a - e - i) := by
    rw [hS, mul_pow, Real.sq_sqrt (le_of_lt hu)]
    ring
  have hSpos : 0 < S := by
    rw [hS]
    have := Real.sqrt_pos.mpr hu
    linarith
  have hSne : S ≠ 0 := ne_of_gt hSpos
  have key00 : (b+d)^2 + (c+g)^2 = 2*(1+a-e-i)*(1-a) := by
    linear_combination r1 + n1 + 2*x3 + 2*hE
  have key11 : (c+g)^2 = 2*(1+a-e-i)*(1-e) - (1+a-e-i)^2 := by
    linear_combination r1 + r3 + (-1)*n2 + 2*hE
  have key22 : (b+d)^2 = 2*(1+a-e-i)*(1-i) - (1+a-e-i)^2 := by
    linear_combination r1 + r2 + (-1)*n3 + 2*x3
  have keyhf : (h-f)^2 = (1+a-e-i)*(1+a+e+i) := by
    linear_combination n2 + n3 + (-1)*r1 + (-2)*hA
  have d01 : (c+g)*(h-f) = (1+a-e-i)*(d-b) := by
    linear_combination (-(1+a))*hD + (1+a)*hB + (d-b)*hE + g*hH + (-c)*x2
  have d02 : (b+d)*(h-f) = (1+a-e-i)*(c-g) := by
    linear_combination (-(1+a))*x1 + (1+a)*hG + (c-g)*x3 + b*hH + (-d)*x2
  have d12 : (b+d)*(c+g) = (1+a-e-i)*(f+h) := by
    linear_combination (-(1-e))*hH + (-(1-e))*x2 + (f+h)*x3 + b*x1 + d*hG
  have dnorm : (b+d)^2 + (c+g)^2 + (h-f)^2 = (1+a-e-i)*(4-(1+a-e-i)) := by
    linear_combination key00 + keyhf
  refine ⟨?_, ?_, ?_, ?_, ?_, ?_, ?_, ?_, ?_, ?_⟩
  · field_simp
    linear_combination (1-a)*hS2 + (-2)*key00
  · field_simp
    linear_combination (-2*S)*d01 + ((d-b)/2*S)*hS2
  · field_simp
    linear_combination (2*S)*d02 + (-(c-g)/2*S)*hS2
  · field_simp
    linear_combination (2*S)*d01 + (-(d-b)/2*S)*hS2
  · field_simp
    linear_combination (-2)*key11 + (-(S^2)/8 + 1 - e - (1+a-e-i)/2)*hS2
  · field_simp
    linear_combination (2*S)*d12 + (-(f+h)/2*S)*hS2
  · field_simp
    linear_combination (-2*S)*d02 + ((c-g)/2*S)*hS2
  · field_simp
    linear_combination (2*S)*d12 + (-(f+h)/2*S)*hS2
  · field_simp
    linear_combination (-2)*key22 + (-(S^2)/8 + 1 - i - (1+a-e-i)/2)*hS2
  · field_simp
    linear_combination dnorm + (S^2/16 + (1+a-e-i)/4 - 1)*hS2

/-- The square-root argument of the M00-dominant branch is positive for all
real inputs reaching that branch. -/
lemma pos_d00 (a e i : ℝ) (h1 : ¬ a + e + i > 0) (h2 : a > e ∧ a > i) :
    0 < 1 + a - e - i := by
  push_neg at h1
  rcases le_or_lt 0 a with h | h
  · linarith [h2.1, h2.2]
  · linarith [h2.1, h2.2]

/-- The square-root argument of the M11-dominant branch is positive for all
real inputs reaching that branch. -/
lemma pos_d11 (a e i : ℝ) (h1 : ¬ a + e + i > 0) (h2 : ¬(a > e ∧ a > i))
    (h3 : e > i) : 0 < 1 + e - i - a := by
  push_neg at h1
  rcases not_and_or.mp h2 with h | h
  · push_neg at h
    by_contra hc
    push_neg at hc
    linarith
  · push_neg at h
    by_contra hc
    push_neg at hc
    linarith

/-- The square-root argument of the M22-dominant branch is positive for all
real inputs reaching that branch. -/
lemma pos_d22 (a e i : ℝ) (h1 : ¬ a + e + i > 0) (h2 : ¬(a > e ∧ a > i))
    (h3 : ¬ e > i) : 0 < 1 + i - a - e := by
  push_neg at h1 h3
  rcases not_and_or.mp h2 with h | h
  · push_neg at h
    by_contra hc
    push_neg at hc
    linarith
  · push_neg at h
    by_contra hc
    push_neg at hc
    linarith

/-- An orthonormal right-handed basis (determinant +1) has
zAxis = xAxis x yAxis, componentwise. -/
lemma basis_cross (xa ya za : Vec3) (ho : Orthonormal3 xa ya za)
    (hr : RightHanded xa ya za) :
    za.x = xa.y * ya.z - xa.z * ya.y ∧
    za.y = xa.z * ya.x - xa.x * ya.z ∧
    za.z = xa.x * ya.y - xa.y * ya.x := by
  obtain ⟨hn1, hn2, hn3, ho12, ho13, ho23⟩ := ho
  simp only [RightHanded, dot, cross] at hr
  simp only [dot, cross] at hn1 hn2 hn3 ho12 ho13 ho23
  have uu : (xa.y * ya.z - xa.z * ya.y)^2 + (xa.z * ya.x - xa.x * ya.z)^2 +
      (xa.x * ya.y - xa.y * ya.x)^2 = 1 := by
    linear_combination (ya.x*ya.x + ya.y*ya.y + ya.z*ya.z) * hn1 + hn2 +
      (-(xa.x*ya.x + xa.y*ya.y + xa.z*ya.z)) * ho12
  have sumsq : (za.x - (xa.y * ya.z - xa.z * ya.y))^2 +
      (za.y - (xa.z * ya.x - xa.x * ya.z))^2 +
      (za.z - (xa.x * ya.y - xa.y * ya.x))^2 = 0 := by
    linear_combination uu + hn3 + (-2)*hr
  have hq1 := sq_nonneg (za.x - (xa.y * ya.z - xa.z * ya.y))
  have hq2 := sq_nonneg (za.y - (xa.z * ya.x - xa.x * ya.z))
  have hq3 := sq_nonneg (za.z - (xa.x * ya.y - xa.y * ya.x))
  have k1 : (za.x - (xa.y * ya.z - xa.z * ya.y))^2 = 0 := by linarith
  have k2 : (za.y - (xa.z * ya.x - xa.x * ya.z))^2 = 0 := by linarith
  have k3 : (za.z - (xa.x * ya.y - xa.y * ya.x))^2 = 0 := by linarith
  have e1 := pow_eq_zero_iff (by norm_num : (2:ℕ) ≠ 0) |>.mp k1
  have e2 := pow_eq_zero_iff (by norm_num : (2:ℕ) ≠ 0) |>.mp k2
  have e3 := pow_eq_zero_iff (by norm_num : (2:ℕ) ≠ 0) |>.mp k3
  exact ⟨by linarith, by linarith, by linarith⟩

/-- C1: for every exactly orthonormal right-handed basis, converting the
quaternion returned by _axes_to_quaternion back to a rotation matrix via the
standard quaternion-to-matrix formula reproduces the matrix whose columns are
xAxis, yAxis, zAxis, exactly over real arithmetic. -/
theorem C1_quat_roundtrip (xa ya za : Vec3)
    (ho : Orthonormal3 xa ya za) (hr : RightHanded xa ya za) :
    quatToMatrix (axes_to_quaternion xa ya za) = basisMatrix xa ya za := by
  obtain ⟨c1, c2, c3⟩ := basis_cross xa ya za ho hr
  obtain ⟨hn1, hn2, hn3, ho12, ho13, ho23⟩ := ho
  simp only [dot] at hn1 hn2 hn3 ho12 ho13 ho23
  have kn1 : xa.x^2 + xa.y^2 + xa.z^2 = 1 := by linear_combination hn1
  have kn2 : ya.x^2 + ya.y^2 + ya.z^2 = 1 := by linear_combination hn2
  have kn3 : za.x^2 + za.y^2 + za.z^2 = 1 := by linear_combination hn3
  simp only [axes_to_quaternion]
  split_ifs with h1 h2 h3
  · obtain ⟨e00, e01, e02, e10, e11, e12, e20, e21, e22, _⟩ :=
      trPos_entries xa.x ya.x za.x xa.y ya.y za.y xa.z ya.z za.z
        (Real.sqrt (xa.x + ya.y + za.z + 1) * 2)
        kn1 kn2 kn3 ho12 c1 c2 c3 h1 rfl
    simp only [quatToMatrix, basisMatrix, Mat3.mk.injEq]
    exact ⟨by linear_combination e00, by linear_combination e01,
      by linear_combination e02, by linear_combination e10,
      by linear_combination e11, by linear_combination e12,
      by linear_combination e20, by linear_combination e21,
      by linear_combination e22⟩
  · obtain ⟨kit1, kit2, kit3, kit4, kit5, kit6, kit7, kit8, kit9⟩ :=
      rotation_kit xa.x ya.x za.x xa.y ya.y za.y xa.z ya.z za.z
        kn1 kn2 kn3 ho12 c1 c2 c3
    obtain ⟨e00, e01, e02, e10, e11, e12, e20, e21, e22, _⟩ :=
      d00_entries xa.x ya.x za.x xa.y ya.y za.y xa.z ya.z za.z
        (Real.sqrt (1 + xa.x - ya.y - za.z) * 2)
        kn1 kn2 kn3 ho12 c1 c2 c3
        (pos_d00 xa.x ya.y za.z h1 h2) rfl
    simp only [quatToMatrix, basisMatrix, Mat3.mk.injEq]
    exact ⟨by linear_combination e00, by linear_combination e01,
      by linear_combination e02, by linear_combination e10,
      by linear_combination e11, by linear_combination e12,
      by linear_combination e20, by linear_combination e21,
      by linear_combination e22⟩
  · obtain ⟨kitA, kitD, kitG, kitB, kitE, kitH, kr1, kr2, kr3⟩ :=
      rotation_kit xa.x ya.x za.x xa.y ya.y za.y xa.z ya.z za.z
        kn1 kn2 kn3 ho12 c1 c2 c3
    obtain ⟨p1, p2, p3, p4, p5, p6, p7, p8, p9, _⟩ :=
      d00_entries ya.y za.y xa.y ya.z za.z xa.z ya.x za.x xa.x
        (Real.sqrt (1 + ya.y - xa.x - za.z) * 2)
        (by linear_combination kn2) (by linear_combination kn3)
        (by linear_combination kn1) (by linear_combination ho23)
        (by linear_combination kitD) (by linear_combination kitG)
        (by linear_combination kitA)
        (pos_d11 xa.x ya.y za.z h1 h2 h3)
        (by rw [show (1 + ya.y - za.z - xa.x : ℝ) = 1 + ya.y - xa.x - za.z
          from by ring])
    simp only [quatToMatrix, basisMatrix, Mat3.mk.injEq]
    exact ⟨by linear_combination p9, by linear_combination p7,
      by linear_combination p8, by linear_combination p3,
      by linear_combination p1, by linear_combination p2,
      by linear_combination p6, by linear_combination p4,
      by linear_combination p5⟩
  · obtain ⟨kitA, kitD, kitG, kitB, kitE, kitH, kr1, kr2, kr3⟩ :=
      rotation_kit xa.x ya.x za.x xa.y ya.y za.y xa.z ya.z za.z
        kn1 kn2 kn3 ho12 c1 c2 c3
    obtain ⟨q1, q2, q3, q4, q5, q6, q7, q8, q9, _⟩ :=
      d00_entries za.z xa.z ya.z za.x xa.x ya.x za.y xa.y ya.y
        (Real.sqrt (1 + za.z - xa.x - ya.y) * 2)
        (by linear_combination kn3) (by linear_combination kn1)
        (by linear_combination kn2) (by linear_combination ho13)
        (by linear_combination kitH) (by linear_combination kitB)
        (by linear_combination kitE)
        (pos_d22 xa.x ya.y za.z h1 h2 h3)
        (by rw [show (1 + za.z - xa.x - ya.y : ℝ) = 1 + za.z - xa.x - ya.y
          from by ring])
    simp only [quatToMatrix, basisMatrix, Mat3.mk.injEq]
    exact ⟨by linear_combination q5, by linear_combination q6,
      by linear_combination q4, by linear_combination q8,
      by linear_combination q9, by linear_combination q7,
      by linear_combination q2, by linear_combination q3,
      by linear_combination q1⟩

/-- Witness for C1 at the identity basis. -/
theorem C1_witness :
    quatToMatrix (axes_to_quaternion ⟨1, 0, 0⟩ ⟨0, 1, 0⟩ ⟨0, 0, 1⟩) =
      basisMatrix ⟨1, 0, 0⟩ ⟨0, 1, 0⟩ ⟨0, 0, 1⟩ :=
  C1_quat_roundtrip ⟨1, 0, 0⟩ ⟨0, 1, 0⟩ ⟨0, 0, 1⟩
    (by norm_num [Orthonormal3, dot]) (by norm_num [RightHanded, dot, cross])

/-- C2: for every exactly orthonormal right-handed basis, the quaternion
(qx, qy, qz, qw) returned by _axes_to_quaternion has unit norm, in every
branch of the algorithm. -/
theorem C2_unit_norm (xa ya za : Vec3)
    (ho : Orthonormal3 xa ya za) (hr : RightHanded xa ya za) :
    (axes_to_quaternion xa ya za).1^2 + (axes_to_quaternion xa ya za).2.1^2 +
    (axes_to_quaternion xa ya za).2.2.1^2 +
    (axes_to_quaternion xa ya za).2.2.2^2 = 1 := by
  obtain ⟨c1, c2, c3⟩ := basis_cross xa ya za ho hr
  obtain ⟨hn1, hn2, hn3, ho12, ho13, ho23⟩ := ho
  simp only [dot] at hn1 hn2 hn3 ho12 ho13 ho23
  have kn1 : xa.x^2 + xa.y^2 + xa.z^2 = 1 := by linear_combination hn1
  have kn2 : ya.x^2 + ya.y^2 + ya.z^2 = 1 := by linear_combination hn2
  have kn3 : za.x^2 + za.y^2 + za.z^2 = 1 := by linear_combination hn3
  simp only [axes_to_quaternion]
  split_ifs with h1 h2 h3
  · obtain ⟨_, _, _, _, _, _, _, _, _, hnorm⟩ :=
      trPos_entries xa.x ya.x za.x xa.y ya.y za.y xa.z ya.z za.z
        (Real.sqrt (xa.x + ya.y + za.z + 1) * 2)
        kn1 kn2 kn3 ho12 c1 c2 c3 h1 rfl
    simp only
    linear_combination hnorm
  · obtain ⟨_, _, _, _, _, _, _, _, _, hnorm⟩ :=
      d00_entries xa.x ya.x za.x xa.y ya.y za.y xa.z ya.z za.z
        (Real.sqrt (1 + xa.x - ya.y - za.z) * 2)
        kn1 kn2 kn3 ho12 c1 c2 c3
        (pos_d00 xa.x ya.y za.z h1 h2) rfl
    simp only
    linear_combination hnorm
  · obtain ⟨kitA, kitD, kitG, kitB, kitE, kitH, kr1, kr2, kr3⟩ :=
      rotation_kit xa.x ya.x za.x xa.y ya.y za.y xa.z ya.z za.z
        kn1 kn2 kn3 ho12 c1 c2 c3
    obtain ⟨_, _, _, _, _, _, _, _, _, hnorm⟩ :=
      d00_entries ya.y za.y xa.y ya.z za.z xa.z ya.x za.x xa.x
        (Real.sqrt (1 + ya.y - xa.x - za.z) * 2)
        (by linear_combination kn2) (by linear_combination kn3)
        (by linear_combination kn1) (by linear_combination ho23)
        (by linear_combination kitD) (by linear_combination kitG)
        (by linear_combination kitA)
        (pos_d11 xa.x ya.y za.z h1 h2 h3)
        (by rw [show (1 + ya.y - za.z - xa.x : ℝ) = 1 + ya.y - xa.x - za.z
          from by ring])
    simp only
    linear_combination hnorm
  · obtain ⟨kitA, kitD, kitG, kitB, kitE, kitH, kr1, kr2, kr3⟩ :=
      rotation_kit xa.x ya.x za.x xa.y ya.y za.y xa.z ya.z za.z
        kn1 kn2 kn3 ho12 c1 c2 c3
    obtain ⟨_, _, _, _, _, _, _, _, _, hnorm⟩ :=
      d00_entries za.z xa.z ya.z za.x xa.x ya.x za.y xa.y ya.y
        (Real.sqrt (1 + za.z - xa.x - ya.y) * 2)
        (by linear_combination kn3) (by linear_combination kn1)
        (by linear_combination kn2) (by linear_combination ho13)
        (by linear_combination kitH) (by linear_combination kitB)
        (by linear_combination kitE)
        (pos_d22 xa.x ya.y za.z h1 h2 h3) rfl
    simp only
    linear_combination hnorm

/-- Witness for C2 at the 180-degree-about-X basis (the M00-dominant
branch). -/
theorem C2_witness :
    (axes_to_quaternion ⟨1, 0, 0⟩ ⟨0, -1, 0⟩ ⟨0, 0, -1⟩).1^2 +
    (axes_to_quaternion ⟨1, 0, 0⟩ ⟨0, -1, 0⟩ ⟨0, 0, -1⟩).2.1^2 +
    (axes_to_quaternion ⟨1, 0, 0⟩ ⟨0, -1, 0⟩ ⟨0, 0, -1⟩).2.2.1^2 +
    (axes_to_quaternion ⟨1, 0, 0⟩ ⟨0, -1, 0⟩ ⟨0, 0, -1⟩).2.2.2^2 = 1 :=
  C2_unit_norm ⟨1, 0, 0⟩ ⟨0, -1, 0⟩ ⟨0, 0, -1⟩
    (by norm_num [Orthonormal3, dot]) (by norm_num [RightHanded, dot, cross])

/-- C3: for every exactly orthonormal right-handed basis not at gimbal lock
(|M20| < 1), the angles (rx, ry, rz) returned by _axes_to_euler_zyx satisfy
Rz(rz)*Ry(ry)*Rx(rx) = M, exactly over real arithmetic. -/
theorem C3_euler_roundtrip (xa ya za : Vec3)
    (ho : Orthonormal3 xa ya za) (hr : RightHanded xa ya za)
    (hg : |xa.z| < 1) :
    eulerZYXMatrix (axes_to_euler_zyx xa ya za).1
      (axes_to_euler_zyx xa ya za).2.1 (axes_to_euler_zyx xa ya za).2.2 =
    basisMatrix xa ya za := by
  obtain ⟨c1, c2, c3⟩ := basis_cross xa ya za ho hr
  obtain ⟨hn1, hn2, hn3, ho12, ho13, ho23⟩ := ho
  simp only [dot] at hn1 hn2 hn3 ho12 ho13 ho23
  have kn1 : xa.x^2 + xa.y^2 + xa.z^2 = 1 := by linear_combination hn1
  have kn2 : ya.x^2 + ya.y^2 + ya.z^2 = 1 := by linear_combination hn2
  have kn3 : za.x^2 + za.y^2 + za.z^2 = 1 := by linear_combination hn3
  obtain ⟨kitA, kitD, kitG, kitB, kitE, kitH, kr1, kr2, kr3⟩ :=
    rotation_kit xa.x ya.x za.x xa.y ya.y za.y xa.z ya.z za.z
      kn1 kn2 kn3 ho12 c1 c2 c3
  obtain ⟨hg2, hg1⟩ := abs_lt.mp hg
  have hclamp : max (-1) (min 1 xa.z) = xa.z := by
    rw [min_eq_right (le_of_lt hg1), max_eq_right (le_of_lt hg2)]
  have hu1 : (0:ℝ) < 1 - xa.z^2 := by nlinarith
  have hupos : 0 < Real.sqrt (1 - xa.z^2) := Real.sqrt_pos.mpr hu1
  have hune : Real.sqrt (1 - xa.z^2) ≠ 0 := ne_of_gt hupos
  have hu2 : Real.sqrt (1 - xa.z^2) ^ 2 = 1 - xa.z^2 := Real.sq_sqrt (le_of_lt hu1)
  -- the two atan2 inputs are nonzero points
  have habsx : Complex.abs ⟨za.z, ya.z⟩ = Real.sqrt (1 - xa.z^2) := by
    rw [Complex.abs_apply, Complex.normSq_mk]
    congr 1
    linear_combination kr3
  have habsz : Complex.abs ⟨xa.x, xa.y⟩ = Real.sqrt (1 - xa.z^2) := by
    rw [Complex.abs_apply, Complex.normSq_mk]
    congr 1
    linear_combination kn1
  have hnex : (⟨za.z, ya.z⟩ : ℂ) ≠ 0 := by
    intro h0
    rw [h0] at habsx
    simp only [map_zero] at habsx
    exact hune habsx.symm
  have hnez : (⟨xa.x, xa.y⟩ : ℂ) ≠ 0 := by
    intro h0
    rw [h0] at habsz
    simp only [map_zero] at habsz
    exact hune habsz.symm
  have hsinx : Real.sin (atan2 ya.z za.z) = ya.z / Real.sqrt (1 - xa.z^2) := by
    simp only [atan2]
    rw [Complex.sin_arg, habsx]
  have hcosx : Real.cos (atan2 ya.z za.z) = za.z / Real.sqrt (1 - xa.z^2) := by
    simp only [atan2]
    rw [Complex.cos_arg hnex, habsx]
  have hsinz : Real.sin (atan2 xa.y xa.x) = xa.y / Real.sqrt (1 - xa.z^2) := by
    simp only [atan2]
    rw [Complex.sin_arg, habsz]
  have hcosz : Real.cos (atan2 xa.y xa.x) = xa.x / Real.sqrt (1 - xa.z^2) := by
    simp only [atan2]
    rw [Complex.cos_arg hnez, habsz]
  simp only [axes_to_euler_zyx]
  rw [hclamp, if_pos hg]
  simp only [eulerZYXMatrix, matMul, rotX, rotY, rotZ, basisMatrix]
  rw [Real.sin_neg, Real.cos_neg, Real.sin_arcsin (le_of_lt hg2) (le_of_lt hg1),
    Real.cos_arcsin, hsinx, hcosx, hsinz, hcosz]
  simp only [Mat3.mk.injEq]
  refine ⟨?_, ?_, ?_, ?_, ?_, ?_, ?_, ?_, ?_⟩
  · field_simp
  · field_simp
    linear_combination (-(1 - xa.z^2))*kitB + (-(1 - xa.z^2))*xa.z*c2
  · field_simp
    linear_combination (1 - xa.z^2)*xa.z*kitE + (-(1 - xa.z^2))*c1
  · field_simp
  · field_simp
    linear_combination (1 - xa.z^2)*xa.z*c1 + (-(1 - xa.z^2))*kitE
  · field_simp
    linear_combination (-(1 - xa.z^2))*xa.z*kitB + (-(1 - xa.z^2))*c2
  · field_simp
  · field_simp
  · field_simp

/-- Witness for C3 at the identity basis. -/
theorem C3_witness :
    eulerZYXMatrix (axes_to_euler_zyx ⟨1, 0, 0⟩ ⟨0, 1, 0⟩ ⟨0, 0, 1⟩).1
      (axes_to_euler_zyx ⟨1, 0, 0⟩ ⟨0, 1, 0⟩ ⟨0, 0, 1⟩).2.1
      (axes_to_euler_zyx ⟨1, 0, 0⟩ ⟨0, 1, 0⟩ ⟨0, 0, 1⟩).2.2 =
    basisMatrix ⟨1, 0, 0⟩ ⟨0, 1, 0⟩ ⟨0, 0, 1⟩ :=
  C3_euler_roundtrip ⟨1, 0, 0⟩ ⟨0, 1, 0⟩ ⟨0, 0, 1⟩
    (by norm_num [Orthonormal3, dot]) (by norm_num [RightHanded, dot, cross])
    (by norm_num)

/-- C4: for every real-valued input, both functions are total: the
square-root argument of the branch _axes_to_quaternion selects is strictly
positive, its divisor S is nonzero, and the asin argument of
_axes_to_euler_zyx lies in [-1, 1] after the clamp.  (In this real-number
embedding no other partiality exists, so this is the whole totality
content.) -/
theorem C4_total (xa ya za : Vec3) :
    0 < qSqrtArg xa ya za ∧ qDenom xa ya za ≠ 0 ∧
    -1 ≤ max (-1) (min 1 xa.z) ∧ max (-1) (min 1 xa.z) ≤ 1 := by
  have harg : 0 < qSqrtArg xa ya za := by
    simp only [qSqrtArg]
    split_ifs with h1 h2 h3
    · linarith
    · push_neg at h1
      rcases le_or_lt 0 xa.x with h | h
      · linarith [h2.1, h2.2]
      · linarith [h2.1, h2.2]
    · push_neg at h1
      rcases not_and_or.mp h2 with h | h
      · push_neg at h
        by_contra hc
        push_neg at hc
        linarith
      · push_neg at h
        by_contra hc
        push_neg at hc
        linarith
    · push_neg at h1 h3
      rcases not_and_or.mp h2 with h | h
      · push_neg at h
        by_contra hc
        push_neg at hc
        linarith
      · push_neg at h
        by_contra hc
        push_neg at hc
        linarith
  have hden : 0 < Real.sqrt (qSqrtArg xa ya za) * 2 := by
    have := Real.sqrt_pos.mpr harg
    linarith
  exact ⟨harg, by simpa [qDenom] using hden.ne', le_max_left _ _,
    max_le (by norm_num) (min_le_left _ _)⟩

/-- C5: for every input with trace tr > 0, _axes_to_quaternion returns
exactly qw = S/4, qx = (M21-M12)/S, qy = (M02-M20)/S, qz = (M10-M01)/S with
S = 2*sqrt(tr+1). -/
theorem C5_trace_branch (xa ya za : Vec3) (htr : xa.x + ya.y + za.z > 0) :
    axes_to_quaternion xa ya za =
      ((ya.z - za.y) / (2 * Real.sqrt (xa.x + ya.y + za.z + 1)),
       (za.x - xa.z) / (2 * Real.sqrt (xa.x + ya.y + za.z + 1)),
       (xa.y - ya.x) / (2 * Real.sqrt (xa.x + ya.y + za.z + 1)),
       2 * Real.sqrt (xa.x + ya.y + za.z + 1) / 4) := by
  simp only [axes_to_quaternion]
  rw [if_pos htr]
  simp only [Prod.mk.injEq]
  refine ⟨by ring, by ring, by ring, by ring⟩

/-- Witness for C5 at the identity basis (trace 3 > 0). -/
theorem C5_witness :
    axes_to_quaternion ⟨1, 0, 0⟩ ⟨0, 1, 0⟩ ⟨0, 0, 1⟩ = (0, 0, 0, 1) := by
  have h := C5_trace_branch ⟨1, 0, 0⟩ ⟨0, 1, 0⟩ ⟨0, 0, 1⟩ (by norm_num)
  rw [h]
  have h4 : Real.sqrt 4 = 2 := by
    rw [show (4 : ℝ) = 2 ^ 2 by norm_num]
    exact Real.sqrt_sq (by norm_num)
  norm_num
  rw [h4]
  norm_num

/-- C6: for every input with trace tr <= 0, the branch _axes_to_quaternion
takes corresponds to a maximal diagonal entry: the M00 branch is taken only
when M00 >= M11 and M00 >= M22, and symmetrically for the other two. -/
theorem C6_diag (xa ya za : Vec3) (htr : xa.x + ya.y + za.z ≤ 0) :
    (qbranch xa ya za = QBranch.d00 → xa.x ≥ ya.y ∧ xa.x ≥ za.z) ∧
    (qbranch xa ya za = QBranch.d11 → ya.y ≥ xa.x ∧ ya.y ≥ za.z) ∧
    (qbranch xa ya za = QBranch.d22 → za.z ≥ xa.x ∧ za.z ≥ ya.y) := by
  simp only [qbranch]
  split_ifs with h1 h2 h3
  · exact ⟨fun h => by simp at h, fun h => by simp at h, fun h => by simp at h⟩
  · exact ⟨fun _ => ⟨le_of_lt h2.1, le_of_lt h2.2⟩, fun h => by simp at h,
      fun h => by simp at h⟩
  · refine ⟨fun h => by simp at h, fun _ => ?_, fun h => by simp at h⟩
    rcases not_and_or.mp h2 with h | h
    · push_neg at h
      exact ⟨h, le_of_lt h3⟩
    · push_neg at h
      exact ⟨le_trans h (le_of_lt h3), le_of_lt h3⟩
  · refine ⟨fun h => by simp at h, fun h => by simp at h, fun _ => ?_⟩
    push_neg at h3
    rcases not_and_or.mp h2 with h | h
    · push_neg at h
      exact ⟨le_trans h h3, h3⟩
    · push_neg at h
      exact ⟨h, h3⟩

/-- Witness for C6 at the 180-degree-about-X basis, whose trace is -1 and
which takes the M00 branch. -/
theorem C6_witness :
    qbranch ⟨1, 0, 0⟩ ⟨0, -1, 0⟩ ⟨0, 0, -1⟩ = QBranch.d00 ∧
    (1 : ℝ) ≥ -1 ∧ (1 : ℝ) ≥ -1 := by
  have h := (C6_diag ⟨1, 0, 0⟩ ⟨0, -1, 0⟩ ⟨0, 0, -1⟩ (by norm_num)).1
  have hb : qbranch ⟨1, 0, 0⟩ ⟨0, -1, 0⟩ ⟨0, 0, -1⟩ = QBranch.d00 := by
    simp only [qbranch]
    norm_num
  exact ⟨hb, h hb⟩

/-- C7: for every input whose clamped entry M20c = clamp(M20, -1, 1)
satisfies |M20c| < 1, _axes_to_euler_zyx returns exactly
ry = -asin(M20c), rx = atan2(M21, M22), rz = atan2(M10, M00). -/
theorem C7_nonsingular (xa ya za : Vec3)
    (h : |max (-1) (min 1 xa.z)| < 1) :
    axes_to_euler_zyx xa ya za =
      (atan2 ya.z za.z, -Real.arcsin (max (-1) (min 1 xa.z)),
       atan2 xa.y xa.x) := by
  simp only [axes_to_euler_zyx]
  rw [if_pos h]

/-- Witness for C7 at the identity basis (M20 = 0). -/
theorem C7_witness :
    axes_to_euler_zyx ⟨1, 0, 0⟩ ⟨0, 1, 0⟩ ⟨0, 0, 1⟩ = (0, 0, 0) := by
  have h := C7_nonsingular ⟨1, 0, 0⟩ ⟨0, 1, 0⟩ ⟨0, 0, 1⟩ (by norm_num)
  rw [h]
  norm_num [atan2_zero_one, Real.arcsin_zero]

/-- C8: for every input whose clamped entry satisfies |M20c| = 1,
_axes_to_euler_zyx returns exactly ry = pi/2 if M20c <= -1 and -pi/2
otherwise, rz = 0, and rx = atan2(-M01, M11). -/
theorem C8_gimbal (xa ya za : Vec3)
    (h : |max (-1) (min 1 xa.z)| = 1) :
    axes_to_euler_zyx xa ya za =
      (atan2 (-ya.x) ya.y,
       if max (-1) (min 1 xa.z) ≤ -1 then π / 2 else -(π / 2), 0) := by
  simp only [axes_to_euler_zyx]
  rw [if_neg (by rw [h]; exact lt_irrefl 1)]

/-- Witness for C8 at the basis with M20 = 1 (so ry = -pi/2). -/
theorem C8_witness :
    axes_to_euler_zyx ⟨0, 0, 1⟩ ⟨0, 1, 0⟩ ⟨-1, 0, 0⟩ = (0, -(π / 2), 0) := by
  have h := C8_gimbal ⟨0, 0, 1⟩ ⟨0, 1, 0⟩ ⟨-1, 0, 0⟩ (by norm_num)
  rw [h]
  norm_num [atan2_zero_one]

/-- C9 counterexample: for xAxis=(0,0,-1), yAxis=(0,1,0), zAxis=(1,0,0) the
matrix entry M20 is -1 (not +1 as the spec asserts), so the code returns
ry = +pi/2, refuting the claimed ry = -pi/2. -/
theorem C9_counterexample :
    (axes_to_euler_zyx ⟨0, 0, -1⟩ ⟨0, 1, 0⟩ ⟨1, 0, 0⟩).2.1 ≠ -(π / 2) := by
  have hval : (axes_to_euler_zyx ⟨0, 0, -1⟩ ⟨0, 1, 0⟩ ⟨1, 0, 0⟩).2.1 = π / 2 := by
    simp only [axes_to_euler_zyx]
    norm_num
  rw [hval]
  have := Real.pi_pos
  intro hc
  linarith

/-- C9 amended: for xAxis=(0,0,-1), yAxis=(0,1,0), zAxis=(1,0,0) (so
M20 = -1), _axes_to_euler_zyx takes the gimbal-lock branch with no domain
error and returns ry = +pi/2 and rz = 0 (and rx = atan2(0,1) = 0). -/
theorem C9_amended :
    gimbalLock ⟨0, 0, -1⟩ ⟨0, 1, 0⟩ ⟨1, 0, 0⟩ ∧
    axes_to_euler_zyx ⟨0, 0, -1⟩ ⟨0, 1, 0⟩ ⟨1, 0, 0⟩ = (0, π / 2, 0) := by
  constructor
  · simp [gimbalLock]
  · simp only [axes_to_euler_zyx]
    norm_num [atan2_zero_one]

/-- C10: for every real-valued input, the pitch ry returned by
_axes_to_euler_zyx lies in [-pi/2, pi/2], and |ry| = pi/2 exactly when the
gimbal-lock branch is taken. -/
theorem C10_pitch_range (xa ya za : Vec3) :
    -(π / 2) ≤ (axes_to_euler_zyx xa ya za).2.1 ∧
    (axes_to_euler_zyx xa ya za).2.1 ≤ π / 2 ∧
    (|(axes_to_euler_zyx xa ya za).2.1| = π / 2 ↔ gimbalLock xa ya za) := by
  simp only [axes_to_euler_zyx, gimbalLock]
  split_ifs with h h2
  · simp only
    have hlt : |Real.arcsin (max (-1) (min 1 xa.z))| < π / 2 := by
      rw [abs_lt]
      have habs := abs_lt.mp h
      exact ⟨(Real.neg_pi_div_two_lt_arcsin).mpr habs.1,
        (Real.arcsin_lt_pi_div_two).mpr habs.2⟩
    refine ⟨by linarith [Real.arcsin_le_pi_div_two (max (-1) (min 1 xa.z))],
      by linarith [Real.neg_pi_div_two_le_arcsin (max (-1) (min 1 xa.z))], ?_⟩
    rw [abs_neg]
    constructor
    · intro heq
      exact absurd heq (ne_of_lt hlt)
    · intro hg
      exact absurd h hg
  · have hpi := Real.pi_pos
    simp only
    refine ⟨by linarith, le_refl _, ?_⟩
    rw [abs_of_pos (by linarith)]
    exact ⟨fun _ => h, fun _ => rfl⟩
  · have hpi := Real.pi_pos
    simp only
    refine ⟨le_refl _, by linarith, ?_⟩
    rw [abs_neg, abs_of_pos (by linarith)]
    exact ⟨fun _ => h, fun _ => rfl⟩
